import Mathlib

/-!
Verification of the RMA-preparation inventory tool (`executable_rma_prep.py`).

The Python source is shallowly embedded: each relevant Python function is
translated into a computable Lean definition over explicit inputs (file
contents, parsed records) instead of filesystem access.  Python strings are
modelled as Lean `String`s, Python `None` as `Option.none`, Python string
truthiness (`if s:`) as `s ≠ ""`, dictionaries as association lists in
insertion order, and Python object identity (`!=` on objects without `__eq__`)
via an explicit `id` field.
-/

namespace RmaPrep

/-! ## Python string primitives -/

/-- Python `str.lower()` (ASCII case folding, which covers all inputs the
tool compares). -/
def strLower (s : String) : String := String.mk (s.data.map Char.toLower)

/-- Does the first list start with the second one?  (`str.startswith`). -/
def startsWithL : List Char → List Char → Bool
  | _, [] => true
  | [], _ :: _ => false
  | a :: as, b :: bs => a == b && startsWithL as bs

/-- Python substring containment `needle in hay`, on character lists. -/
def containsL : List Char → List Char → Bool
  | [], needle => startsWithL [] needle
  | hay@(_ :: t), needle => startsWithL hay needle || containsL t needle

/-- Python `needle in hay` on strings. -/
def pyIn (needle hay : String) : Bool := containsL hay.data needle.data

/-- Python `s.startswith(p)`. -/
def pyStartsWith (s p : String) : Bool := startsWithL s.data p.data

/-- Python string `<`: lexicographic comparison by code point. -/
def strLtL : List Char → List Char → Bool
  | [], [] => false
  | [], _ :: _ => true
  | _ :: _, [] => false
  | a :: as, b :: bs => if a < b then true else if b < a then false else strLtL as bs

/-- Python `a < b` on strings. -/
def pyStrLt (a b : String) : Bool := strLtL a.data b.data

/-- Python `min(x :: l)` under a strict comparison: the fold keeps the
current minimum unless a strictly smaller element appears, so the first
minimal element wins, exactly as CPython's `min`. -/
def pyMinBy (lt : α → α → Bool) (x : α) (l : List α) : α :=
  l.foldl (fun m y => if lt y m then y else m) x

/-- Python `s.split('.')` (explicit separator: empty pieces are kept). -/
def splitDotAux : List Char → List Char → List (List Char)
  | [], cur => [cur.reverse]
  | c :: rest, cur =>
      if c = '.' then cur.reverse :: splitDotAux rest []
      else splitDotAux rest (c :: cur)

/-- Python `s.split('.')` on strings. -/
def pySplitDot (s : String) : List String := (splitDotAux s.data []).map String.mk

/-- Decimal digit value. -/
def digitVal (c : Char) : Option Nat :=
  if '0' ≤ c ∧ c ≤ '9' then some (c.toNat - '0'.toNat) else none

/-- Accumulate decimal digits; fails on any non-digit. -/
def digitsAux : Nat → List Char → Option Nat
  | acc, [] => some acc
  | acc, c :: rest =>
      match digitVal c with
      | some d => digitsAux (10 * acc + d) rest
      | none => none

/-- Python `int(s)` restricted to an optional sign followed by decimal
digits (the only shapes the tool feeds it: IP-address octets). -/
def pyInt (s : String) : Option Int :=
  match s.data with
  | [] => none
  | '-' :: rest =>
      match rest with
      | [] => none
      | _ => (digitsAux 0 rest).map (fun n => -(n : Int))
  | '+' :: rest =>
      match rest with
      | [] => none
      | _ => (digitsAux 0 rest).map (fun n => (n : Int))
  | l => (digitsAux 0 l).map (fun n => (n : Int))

/-! ## IP sort helpers (`get_ip_last_octet`, `ip_to_sort_key`) -/

/-- `get_ip_last_octet`: last dot-component parsed as an integer, `0` for a
missing/empty/unparsable address. -/
def getIpLastOctet (ip : Option String) : Int :=
  match ip with
  | none => 0
  | some s =>
      if s = "" then 0
      else (pyInt ((pySplitDot s).getLastD "")).getD 0

/-- `ip_to_sort_key`: the four octets as an integer tuple, `(0,0,0,0)` for
missing or malformed addresses. -/
def ipToSortKey (ip : Option String) : Int × Int × Int × Int :=
  match ip with
  | none => (0, 0, 0, 0)
  | some s =>
      if s = "" then (0, 0, 0, 0)
      else
        match (pySplitDot s).mapM pyInt with
        | some [a, b, c, d] => (a, b, c, d)
        | _ => (0, 0, 0, 0)

/-- Lexicographic `<` on four-integer tuples (Python tuple comparison, as
used for sort keys). -/
def lex4Lt : Int × Int × Int × Int → Int × Int × Int × Int → Bool
  | (a1, a2, a3, a4), (b1, b2, b3, b4) =>
      if a1 < b1 then true else if b1 < a1 then false
      else if a2 < b2 then true else if b2 < a2 then false
      else if a3 < b3 then true else if b3 < a3 then false
      else decide (a4 < b4)

/-! ## `Node._get_ips_from_monitor_data` (C1) -/

/-- One NIC record of `monitor_result.json` (`nic_info['info']`): the code
reads `address` and `mac_address` with `''` defaults. -/
structure NicInfo where
  address : String
  mac_address : String
deriving DecidableEq, Repr

/-- The dictionary returned by `_get_ips_from_monitor_data`. -/
structure MonitorIps where
  mgmt_ip : Option String
  data_ip : Option String
  mac_address : Option String
deriving DecidableEq, Repr

/-- `Node._get_ips_from_monitor_data`, over the NIC records of
`monitor_result.json` in dictionary iteration order.  Data-IP candidates
are the addresses starting with `"172.16."`; the chosen `data_ip` is
Python's `min` of those strings, i.e. the lexicographically least string. -/
def getIpsFromMonitorData (monitorData : Option (List NicInfo)) : MonitorIps :=
  match monitorData with
  | none => ⟨none, none, none⟩
  | some nics =>
      let step := fun (acc : MonitorIps × List String) (nic : NicInfo) =>
        let res := acc.1
        let dataIps := acc.2
        let res :=
          if nic.address ≠ "" ∧ pyStartsWith nic.address "10." = true ∧ res.mgmt_ip = none then
            { res with mgmt_ip := some nic.address, mac_address := some nic.mac_address }
          else res
        let dataIps :=
          if nic.address ≠ "" ∧ pyStartsWith nic.address "172.16." = true then
            dataIps ++ [nic.address]
          else dataIps
        (res, dataIps)
      let out := nics.foldl step (⟨none, none, none⟩, [])
      match out.2 with
      | [] => out.1
      | x :: xs => { out.1 with data_ip := some (pyMinBy pyStrLt x xs) }

/-! ## `Bundle.create_time` / `create_datetime` and the dedup timestamp (C4) -/

/-- `re.search(key + r':\s+(.+)', content)` over a BUNDLE_ARGS file modelled
as its key/value lines in file order: the first line bearing the key wins. -/
def findField (content : List (String × String)) (key : String) : Option String :=
  (content.find? (fun kv => kv.1 == key)).map (·.2)

/-- The `for pattern in [create_time, start_time]` loop of
`Bundle.create_time`: first key with a match wins. -/
def createTimeLookup (content : List (String × String)) : List String → Option String
  | [] => none
  | k :: ks =>
      match findField content k with
      | some v => some v
      | none => createTimeLookup content ks

/-- `Bundle.create_time`: `none` when the BUNDLE_ARGS file is absent or
unreadable, else the first `create_time:`/`start_time:` value found. -/
def bundleCreateTime (content : Option (List (String × String))) : Option String :=
  match content with
  | none => none
  | some c => createTimeLookup c ["create_time", "start_time"]

/-- `Bundle.create_datetime`: the extracted time string parsed by
`datetime.strptime`, `none` on parse failure.  `parse` abstracts `strptime`
into a totally ordered timestamp (`Nat`). -/
def bundleCreateDatetime (parse : String → Option Nat)
    (content : Option (List (String × String))) : Option Nat :=
  (bundleCreateTime content).bind parse

/-- The timestamp `filter_latest_bundles_per_node` compares:
`bundle.create_datetime or datetime.min`, with `datetime.min` embedded as
`0`, the least timestamp. -/
def dedupTimestamp (parse : String → Option Nat)
    (content : Option (List (String × String))) : Nat :=
  (bundleCreateDatetime parse content).getD 0

/-- Modelled from the spec: the four-tier timestamp chain the spec
describes — primary field `create_time`, then `start_time`, then the bundle
directory's modification time, then the minimum sentinel.  The source has
no modification-time tier; this definition exists to compare the spec's
words against `dedupTimestamp`. -/
def specFourTierTimestamp (parse : String → Option Nat)
    (content : Option (List (String × String))) (mtime : Option Nat) : Nat :=
  (((bundleCreateTime content).bind parse) <|> mtime).getD 0

/-! ## `Node.box_serial` and `FRUParser.get_chassis_serial` (C5) -/

/-- `INVALID_SERIALS` from the source constants. -/
def INVALID_SERIALS : List String := ["Unspecified", "Not Specified", "0"]

/-- `FRUParser.get_chassis_serial()` given the (stripped) chassis-serial
regex capture, or `none` when the file is unreadable or the pattern is
absent: the candidate is rejected when empty or in `INVALID_SERIALS`. -/
def getChassisSerial (rawMatch : Option String) : Option String :=
  match rawMatch with
  | none => none
  | some serial =>
      if serial ≠ "" ∧ serial ∉ INVALID_SERIALS then some serial else none

/-- The three source extractions `Node.box_serial` consults:
tier (a) `SerialNumberExtractor.get_box_serial_from_bmc_logs()` (BMC log,
second enclosure record), tier (b) `get_box_serial_from_dmidecode()` (last
chassis serial of the dmidecode dump), tier (c) the ipmitool FRU file
(`none` = file absent, `some raw` = its chassis-serial capture). -/
structure BoxSerialSources where
  bmcFruSerial : Option String
  dmidecodeSerial : Option String
  fruFile : Option (Option String)
deriving DecidableEq, Repr

/-- `Node.box_serial`: tiers (a) and (b) are accepted when non-empty and
not equal to `'Uninitialized'`; tier (c) delegates to
`FRUParser.get_chassis_serial` (which filters only `INVALID_SERIALS`). -/
def boxSerial (src : BoxSerialSources) : Option String :=
  let tier3 : Option String :=
    match src.fruFile with
    | some raw => getChassisSerial raw
    | none => none
  let tier2 : Option String :=
    match src.dmidecodeSerial with
    | some s => if s ≠ "" ∧ s ≠ "Uninitialized" then some s else tier3
    | none => tier3
  match src.bmcFruSerial with
  | some s => if s ≠ "" ∧ s ≠ "Uninitialized" then some s else tier2
  | none => tier2

/-! ## `Node.node_type` (C6) -/

/-- The three sources `Node.node_type` consults: the `node_type` field of
`config/platform.config` (when that file parsed), the resolved hostname,
and the resolved data IP. -/
structure NodeTypeSources where
  platformNodeType : Option String
  hostname : Option String
  data_ip : Option String
deriving DecidableEq, Repr

/-- `Node.node_type`: platform.config role vocabulary first, then hostname
substrings, then the last-octet heuristic, else `'unknown'`. -/
def node_type (src : NodeTypeSources) : String :=
  let tier3 : String :=
    match src.data_ip with
    | some ip =>
        if ip ≠ "" then
          match pyInt ((pySplitDot ip).getLastD "") with
          | some lastOctet => if lastOctet ≥ 100 then "dnode" else "cnode"
          | none => "unknown"
        else "unknown"
    | none => "unknown"
  let tier2 : String :=
    match src.hostname with
    | some h =>
        if h ≠ "" then
          if pyIn "dnode" (strLower h) then "dnode"
          else if pyIn "cnode" (strLower h) then "cnode"
          else tier3
        else tier3
    | none => tier3
  match src.platformNodeType with
  | some nt0 =>
      if nt0 ≠ "" then
        if pyIn "dnode" (strLower nt0) || pyIn "data" (strLower nt0) then "dnode"
        else if pyIn "cnode" (strLower nt0) || pyIn "control" (strLower nt0)
                || pyIn "compute" (strLower nt0) then "cnode"
        else tier2
      else tier2
  | none => tier2

/-! ## `Device.drive_type` (C9) -/

/-- `NVRAM_INDICATORS` from the source (the list is repeated verbatim
inside `drive_type`). -/
def NVRAM_INDICATORS : List String :=
  ["optane", "dcpmm", "ssdpe21k", "ssdpf21", "scm", "nvdimm", "pmem", "pascari"]

/-- `Device.drive_type` over the resolved `model` and `path` strings; the
source's first-match `for` loop over the indicator list is an `any`. -/
def drive_type (model path : String) : String :=
  if NVRAM_INDICATORS.any
      (fun ind => pyIn ind (strLower model) || pyIn ind (strLower path)) then
    "nvram"
  else "ssd"

/-- The `data` dictionary behind `Device.model`/`Device.path`: each field
records whether the key is present. -/
structure DeviceData where
  model : Option String
  path : Option String
deriving DecidableEq, Repr

/-- `Device.model`: `self.data.get('model', UNKNOWN_VALUE) if self.data
else UNKNOWN_VALUE`. -/
def deviceModel (d : Option DeviceData) : String :=
  match d with
  | none => "Unknown"
  | some dd => dd.model.getD "Unknown"

/-- `Device.path`, same shape as `Device.model`. -/
def devicePath (d : Option DeviceData) : String :=
  match d with
  | none => "Unknown"
  | some dd => dd.path.getD "Unknown"

/-- `Device.drive_type` as reached from the `data` dictionary. -/
def deviceDriveType (d : Option DeviceData) : String :=
  drive_type (deviceModel d) (devicePath d)

/-! ## `Device.__eq__` / `__hash__` (C10) -/

/-- A `Device` object: `serial` plus non-identity attributes (the owning
bundle and the model). -/
structure DeviceE where
  serial : String
  bundleId : Nat
  model : String
deriving DecidableEq, Repr

/-- `Device.__eq__`: `self.serial == other.serial`. -/
def deviceEq (a b : DeviceE) : Bool := a.serial == b.serial

/-- `Device.__hash__`: `hash(self.serial)`, for any hash function on
strings. -/
def deviceHash (h : String → Nat) (a : DeviceE) : Nat := h a.serial

/-- Python `x in l` over a device list: membership via `__eq__`. -/
def pyListContains (l : List DeviceE) (x : DeviceE) : Bool :=
  l.any (fun y => deviceEq y x)

/-! ## `Cluster.find_node` and its search stages (C2)

A compiled regular expression is embedded as its `search` predicate
`String → Bool`; the staging logic of `find_node` never inspects the
pattern beyond calling `search`.  `pattern` is the result of
`_create_search_pattern` (`some` exactly when the identifier looked like a
regex and compiled, matching the code's `is_regex` flag), and `fallback`
is strategy 4's `re.compile(identifier, re.IGNORECASE)` (`none` when that
raises `re.error`). -/

/-- The node fields `find_node` matches on. -/
structure NodeR where
  name : String
  serial_number : Option String
  mgmt_ip : Option String
  data_ip : Option String
  box_serial : Option String
deriving DecidableEq, Repr

/-- One bundle as `find_node` sees it: Python object identity (`id`), the
quick hostname probe, and the resolved node (`Bundle.node` always
constructs a `Node` object). -/
structure BundleR where
  id : Nat
  quickHostname : Option String
  node : NodeR
deriving DecidableEq, Repr

/-- `Cluster._fast_hostname_search`: exact hostname, regex hostname, or
case-insensitive substring match, skipping bundles without a hostname. -/
def fastHostnameSearch (identifier : String) (pattern : Option (String → Bool))
    (bundles : List BundleR) : List BundleR :=
  bundles.filter fun b =>
    match b.quickHostname with
    | none => false
    | some hostname =>
        if hostname = "" then false
        else if hostname == identifier then true
        else if (match pattern with | some p => p hostname | none => false) then true
        else pyIn (strLower identifier) (strLower hostname)

/-- The exact-equality test of `Cluster._exact_match_search` on one node. -/
def exactFieldMatch (identifier : String) (n : NodeR) : Bool :=
  n.name == identifier || n.serial_number == some identifier ||
    n.mgmt_ip == some identifier || n.data_ip == some identifier ||
    n.box_serial == some identifier

/-- The regex test of `Cluster._regex_match_search` on one node
(`pattern.search(field or '')`). -/
def regexFieldMatch (p : String → Bool) (n : NodeR) : Bool :=
  p n.name || p (n.serial_number.getD "") || p (n.mgmt_ip.getD "") ||
    p (n.data_ip.getD "") || p (n.box_serial.getD "")

/-- `if (node, bundle) not in results: results.append(...)` — tuple
membership is object identity here (`Node` defines no `__eq__`). -/
def appendUniqueById (results : List BundleR) (b : BundleR) : List BundleR :=
  if results.any (fun r => r.id == b.id) then results else results ++ [b]

/-- `Cluster._exact_match_search`. -/
def exactMatchSearch (identifier : String) (bundles : List BundleR) : List BundleR :=
  bundles.foldl
    (fun results b =>
      if exactFieldMatch identifier b.node then appendUniqueById results b else results)
    []

/-- `Cluster._regex_match_search`. -/
def regexMatchSearch (p : String → Bool) (bundles : List BundleR) : List BundleR :=
  bundles.foldl
    (fun results b =>
      if regexFieldMatch p b.node then appendUniqueById results b else results)
    []

/-- `Cluster.find_node`: strategy 1 (fast hostname search with its two
early returns — note that when strategy 1 found candidates, strategies 2–4
are all guarded by `if not results` and are therefore skipped even on the
fall-through path), then exact match, then regex (when the identifier was
regex-like), then the fallback regex compile of the raw identifier. -/
def find_node (identifier : String) (pattern : Option (String → Bool))
    (fallback : Option (String → Bool)) (bundles : List BundleR) : List BundleR :=
  let candidates := fastHostnameSearch identifier pattern bundles
  if candidates ≠ [] then
    if candidates.any (fun b => b.node.name == identifier) then candidates
    else if pattern.isNone then candidates
    else candidates
  else
    let results := exactMatchSearch identifier bundles
    if results = [] then
      match pattern with
      | some p => regexMatchSearch p bundles
      | none =>
          match fallback with
          | some p => regexMatchSearch p bundles
          | none => []
    else results

/-- How `main_impl` consumes `find_node`'s list: no match is an error, one
match shows the single-node form, several are reported as ambiguous. -/
inductive MatchOutcome where
  | notFound : MatchOutcome
  | single : BundleR → MatchOutcome
  | ambiguous : List BundleR → MatchOutcome
deriving DecidableEq, Repr

/-- The cardinality branch of `main_impl` on `find_node`'s result. -/
def interpretMatches (ms : List BundleR) : MatchOutcome :=
  match ms with
  | [] => .notFound
  | [b] => .single b
  | l => .ambiguous l

/-! ## `ClusterDiscovery.filter_latest_bundles_per_node` (C3) -/

/-- One bundle as the dedup pass sees it: `Node.hostname`, the
`_node_info['name']` fallback field, and `Bundle.create_datetime`. -/
structure BundleB where
  id : Nat
  hostname : Option String
  nodeInfoName : Option String
  create_datetime : Option Nat
deriving DecidableEq, Repr

/-- Python `a or b` on an optional string: `a` when truthy (present and
non-empty), else `b`. -/
def pyOrStr (a : Option String) (b : String) : String :=
  match a with
  | some s => if s = "" then b else s
  | none => b

/-- `Node.name`: `self.hostname or self._node_info.get('name', 'Unknown')`. -/
def nodeName (b : BundleB) : String := pyOrStr b.hostname (b.nodeInfoName.getD "Unknown")

/-- The grouping key of `filter_latest_bundles_per_node`:
`hostname = node.hostname or node.name; if not hostname: continue`. -/
def resolvedHostname (b : BundleB) : Option String :=
  let h := pyOrStr b.hostname (nodeName b)
  if h = "" then none else some h

/-- `bundle.create_datetime or datetime.min` (`datetime.min` = `0`). -/
def tsOf (b : BundleB) : Nat := b.create_datetime.getD 0

/-- Insertion into a `dict`'s key sequence: first occurrence fixes the
position. -/
def insertKey (ks : List String) (k : String) : List String :=
  if k ∈ ks then ks else ks ++ [k]

/-- The keys of a `defaultdict` built by one pass over `xs`, keyed by
`f x` when it yields a key, in insertion order. -/
def collectKeys (f : α → Option String) (xs : List α) : List String :=
  xs.foldl
    (fun ks x => match f x with | some k => insertKey ks k | none => ks)
    []

/-- The keys of the `node_bundles` dict, in insertion order. -/
def hostKeys (bundles : List BundleB) : List String :=
  collectKeys resolvedHostname bundles

/-- The `node_bundles[hostname]` group, in append order. -/
def hostGroup (h : String) (bundles : List BundleB) : List BundleB :=
  bundles.filter (fun b => resolvedHostname b == some h)

/-- Python `max(l, key=f)`: scan keeping the current best unless a strictly
greater key appears (so the first maximal element wins). -/
def pyMaxAux (f : α → Nat) (best : α) : List α → α
  | [] => best
  | x :: l => pyMaxAux f (if f best < f x then x else best) l

/-- Python `max(l, key=f)` with an empty-list guard. -/
def pyMax (f : α → Nat) : List α → Option α
  | [] => none
  | a :: l => some (pyMaxAux f a l)

/-- `ClusterDiscovery.filter_latest_bundles_per_node`. -/
def filterLatestBundlesPerNode (bundles : List BundleB) : List BundleB :=
  (hostKeys bundles).filterMap (fun h => pyMax tsOf (hostGroup h bundles))

/-! ## Box grouping and sibling computation (C7, C8) -/

/-- A resolved node as the grouping and sibling code sees it, with `id`
for Python object identity (`Node` defines no `__eq__`, so `n != node`
compares identity). -/
structure NodeS where
  id : Nat
  name : String
  position : Option String
  data_ip : Option String
  mgmt_ip : Option String
  box_serial : Option String
deriving DecidableEq, Repr

/-- `Cluster.nodes_by_box`: plain equality against the requested serial
(the argument is `node.box_serial`, which may be `None`). -/
def nodes_by_box (nodes : List NodeS) (serial : Option String) : List NodeS :=
  nodes.filter (fun n => n.box_serial == serial)

/-- Stable insertion of `x` after all elements `y` with `le y x` (Python's
`list.sort` is stable and ascending). -/
def insertLe (le : α → α → Bool) (x : α) : List α → List α
  | [] => [x]
  | y :: ys => if le y x then y :: insertLe le x ys else x :: y :: ys

/-- Stable sort under a total `le`, processing elements in list order. -/
def sortLe (le : α → α → Bool) (l : List α) : List α :=
  l.foldl (fun acc x => insertLe le x acc) []

/-- The sibling sort comparison: ascending
`get_ip_last_octet(n.network.data_ip)`. -/
def sibLe (a b : NodeS) : Bool :=
  decide (getIpLastOctet a.data_ip ≤ getIpLastOctet b.data_ip)

/-- The sibling list of `main_impl` for a single match:
`[n for n, b in cluster.nodes_by_box(node.box_serial) if n != node]`,
sorted by last octet of data IP. -/
def computeSiblings (nodes : List NodeS) (matched : NodeS) : List NodeS :=
  sortLe sibLe
    ((nodes_by_box nodes matched.box_serial).filter (fun n => !(n.id == matched.id)))

/-- The `list_nodes` grouping predicate:
`if node.box_serial and node.box_serial != 'Unknown'`. -/
def knownBoxSerial (n : NodeS) : Option String :=
  match n.box_serial with
  | some s => if s ≠ "" ∧ s ≠ "Unknown" then some s else none
  | none => none

/-- Keys of the `box_nodes` defaultdict, in insertion order. -/
def boxKeys (nodes : List NodeS) : List String :=
  collectKeys knownBoxSerial nodes

/-- The `box_nodes[serial]` group, in append order. -/
def boxGroup (s : String) (nodes : List NodeS) : List NodeS :=
  nodes.filter (fun n => knownBoxSerial n == some s)

/-- `box_nodes.items()`. -/
def boxPairs (nodes : List NodeS) : List (String × List NodeS) :=
  (boxKeys nodes).map (fun s => (s, boxGroup s nodes))

/-- The singleton groups for nodes with missing/`'Unknown'` box serial,
appended after the sorted boxes under the literal key `'Unknown'`. -/
def unknownSingles (nodes : List NodeS) : List (String × List NodeS) :=
  (nodes.filter (fun n => knownBoxSerial n == none)).map (fun n => ("Unknown", [n]))

/-- `≤` by `ip_to_sort_key(mgmt_ip)` (for the in-box pre-sort of
`get_first_mgmt_ip_key`). -/
def mgmtLe (a b : NodeS) : Bool :=
  !(lex4Lt (ipToSortKey b.mgmt_ip) (ipToSortKey a.mgmt_ip))

/-- `get_first_mgmt_ip_key`: sort the group by mgmt-IP key and take the
first node's key (`(0,0,0,0)` for an empty group). -/
def boxSortKey (p : String × List NodeS) : Int × Int × Int × Int :=
  match sortLe mgmtLe p.2 with
  | [] => (0, 0, 0, 0)
  | n :: _ => ipToSortKey n.mgmt_ip

/-- `≤` between boxes for `sorted(box_nodes.items(), key=...)`. -/
def boxLe (a b : String × List NodeS) : Bool :=
  !(lex4Lt (boxSortKey b) (boxSortKey a))

/-- The within-box row order: the tuple key
`(position != 'bottom', last octet of data IP)`. -/
def rowLe (a b : NodeS) : Bool :=
  let pa := !(a.position == some "bottom")
  let pb := !(b.position == some "bottom")
  if pa = pb then decide (getIpLastOctet a.data_ip ≤ getIpLastOctet b.data_ip)
  else !pa

/-- The grouped, ordered node table `list_nodes` renders: known boxes
sorted by first mgmt IP, then the `'Unknown'` singleton groups, each group
sorted by `(position != 'bottom', data-IP last octet)`. -/
def listNodesGroups (nodes : List NodeS) : List (String × List NodeS) :=
  (sortLe boxLe (boxPairs nodes) ++ unknownSingles nodes).map
    (fun p => (p.1, sortLe rowLe p.2))

/-! ## Theorems -/

/-- C1: on the spec's own scenario — secondary-telemetry data-IP candidates
`172.16.2.10` and `172.16.2.5` — the resolver returns `172.16.2.10`,
because `min` runs on Python strings (lexicographic order), not on numeric
IP values; the numerically lowest candidate is `172.16.2.5` (its
`ip_to_sort_key` tuple is strictly smaller).  The claim states the
numerically lowest IP is selected; the code diverges from it. -/
theorem c1_monitor_data_ip_lexicographic_not_numeric :
    (getIpsFromMonitorData
        (some [⟨"172.16.2.10", "aa:bb"⟩, ⟨"172.16.2.5", "cc:dd"⟩])).data_ip
        = some "172.16.2.10"
    ∧ "172.16.2.10" ≠ "172.16.2.5"
    ∧ lex4Lt (ipToSortKey (some "172.16.2.5")) (ipToSortKey (some "172.16.2.10")) = true :=
  ⟨by decide, by decide, by decide⟩

/-- C4 counterexample: with a BUNDLE_ARGS record carrying neither
`create_time` nor `start_time`, the dedup timestamp is the minimum
sentinel even when a directory modification time is available — the code
has no modification-time tier, contradicting the claimed four-tier chain
(the spec-modelled four-tier resolver yields the mtime there). -/
theorem c4_mtime_tier_absent :
    dedupTimestamp (fun s => digitsAux 0 s.data) (some [("hostname", "vh17")]) = 0
    ∧ specFourTierTimestamp (fun s => digitsAux 0 s.data)
        (some [("hostname", "vh17")]) (some 5) = 5
    ∧ (0 : Nat) ≠ 5 :=
  ⟨by decide, by decide, by decide⟩

/-- C4 amended: the dedup timestamp is resolved through a three-tier
chain — the metadata record's `create_time` field, then its `start_time`
field, then the minimum sentinel (also used when the chosen string fails
to parse); the bundle directory's modification time is never consulted. -/
theorem c4_timestamp_three_tiers (parse : String → Option Nat)
    (c : List (String × String)) :
    (∀ v, findField c "create_time" = some v →
        dedupTimestamp parse (some c) = (parse v).getD 0)
    ∧ (findField c "create_time" = none →
        ∀ v, findField c "start_time" = some v →
          dedupTimestamp parse (some c) = (parse v).getD 0)
    ∧ (findField c "create_time" = none → findField c "start_time" = none →
        dedupTimestamp parse (some c) = 0)
    ∧ dedupTimestamp parse none = 0 := by
  refine ⟨?_, ?_, ?_, rfl⟩ <;> intros <;>
    simp [dedupTimestamp, bundleCreateDatetime, bundleCreateTime, createTimeLookup, *]

/-- C4 witness: the three-tier theorem applied to a concrete record whose
`create_time` parses to `7`. -/
theorem c4_timestamp_three_tiers_witness :
    dedupTimestamp (fun s => digitsAux 0 s.data) (some [("create_time", "7")]) = 7 := by
  have h := (c4_timestamp_three_tiers (fun s => digitsAux 0 s.data)
    [("create_time", "7")]).1 "7" (by decide)
  simpa using h

/-- C5 counterexample: when the BMC log and dmidecode tiers yield nothing
and the legacy ipmitool FRU file reports chassis serial `Uninitialized`,
`box_serial` resolves to `Uninitialized` — the legacy-FRU tier filters only
`INVALID_SERIALS`, which does not contain that sentinel. -/
theorem c5_box_serial_can_be_uninitialized :
    boxSerial ⟨none, none, some (some "Uninitialized")⟩ = some "Uninitialized" := by
  decide

/-- A guarded tier of `box_serial` yields `Uninitialized` only by
falling through to the rest of the chain. -/
theorem tier_guard_uninit (s : String) (rest : Option String) :
    (if s ≠ "" ∧ s ≠ "Uninitialized" then some s else rest) = some "Uninitialized" ↔
      ((s = "" ∨ s = "Uninitialized") ∧ rest = some "Uninitialized") := by
  by_cases h : s ≠ "" ∧ s ≠ "Uninitialized"
  · rw [if_pos h]
    constructor
    · intro he
      exact absurd (Option.some.inj he) h.2
    · rintro ⟨hs | hs, -⟩
      · exact absurd hs h.1
      · exact absurd hs h.2
  · rw [if_neg h]
    have hs : s = "" ∨ s = "Uninitialized" := by
      by_cases h0 : s = ""
      · exact Or.inl h0
      · right
        by_contra hu
        exact h ⟨h0, hu⟩
    exact ⟨fun hr => ⟨hs, hr⟩, fun hp => hp.2⟩

/-- `get_chassis_serial` passes `Uninitialized` through: the sentinel is
not in `INVALID_SERIALS`. -/
theorem getChassisSerial_uninit (raw : Option String) :
    getChassisSerial raw = some "Uninitialized" ↔ raw = some "Uninitialized" := by
  rcases raw with _ | s
  · simp [getChassisSerial]
  · simp only [getChassisSerial]
    by_cases h : s ≠ "" ∧ s ∉ INVALID_SERIALS
    · rw [if_pos h]
    · rw [if_neg h]
      constructor
      · intro he
        exact absurd he (by simp)
      · intro he
        have hs : s = "Uninitialized" := Option.some.inj he
        subst hs
        exact absurd ⟨by decide, by decide⟩ h

/-- C5 amended: tiers (a) and (b) do reject an `Uninitialized` (or empty)
candidate, but tier (c) rejects only `INVALID_SERIALS` =
{`Unspecified`, `Not Specified`, `0`}; consequently `box_serial` resolves
to `Uninitialized` exactly when the first two tiers produce nothing
(absent, empty, or `Uninitialized`) and the legacy FRU chassis serial is
`Uninitialized`. -/
theorem c5_uninitialized_only_from_legacy_fru (src : BoxSerialSources) :
    boxSerial src = some "Uninitialized" ↔
      ((src.bmcFruSerial = none ∨ src.bmcFruSerial = some ""
          ∨ src.bmcFruSerial = some "Uninitialized")
        ∧ (src.dmidecodeSerial = none ∨ src.dmidecodeSerial = some ""
          ∨ src.dmidecodeSerial = some "Uninitialized")
        ∧ src.fruFile = some (some "Uninitialized")) := by
  obtain ⟨b, d, f⟩ := src
  have hT3 : (match f with
      | some raw => getChassisSerial raw
      | none => (none : Option String)) = some "Uninitialized" ↔
      f = some (some "Uninitialized") := by
    rcases f with _ | raw
    · simp
    · simpa using getChassisSerial_uninit raw
  cases b <;> cases d <;>
    simp only [boxSerial] <;>
      simp only [tier_guard_uninit, hT3] <;>
        simp

/-- C6: `node_type` is a three-tier first-match-wins chain: the
platform.config role vocabulary (`data`/`dnode` give `dnode`;
`control`/`compute`/`cnode` give `cnode`), then hostname substrings
`dnode`/`cnode`, then the data-IP last-octet heuristic (`≥ 100` gives
`dnode`, else `cnode`); a tier whose source is absent or matches nothing
falls through to the next, exhausting all three yields `"unknown"`, and
the function is total (always one of the three values). -/
theorem c6_node_type_chain (src : NodeTypeSources) :
    (∀ nt, src.platformNodeType = some nt →
        (strLower nt = "data" ∨ strLower nt = "dnode") → node_type src = "dnode")
    ∧ (∀ nt, src.platformNodeType = some nt →
        (strLower nt = "control" ∨ strLower nt = "compute" ∨ strLower nt = "cnode") →
          node_type src = "cnode")
    ∧ (∀ nt hn ip, pyIn "dnode" (strLower nt) = false → pyIn "data" (strLower nt) = false →
        pyIn "cnode" (strLower nt) = false → pyIn "control" (strLower nt) = false →
        pyIn "compute" (strLower nt) = false →
          node_type ⟨some nt, hn, ip⟩ = node_type ⟨none, hn, ip⟩)
    ∧ (∀ hn ip, pyIn "dnode" (strLower hn) = false → pyIn "cnode" (strLower hn) = false →
        node_type ⟨none, some hn, ip⟩ = node_type ⟨none, none, ip⟩)
    ∧ (∀ ip k, ip ≠ "" → pyInt ((pySplitDot ip).getLastD "") = some k →
        node_type ⟨none, none, some ip⟩ = if k ≥ 100 then "dnode" else "cnode")
    ∧ (∀ ip, ip ≠ "" → pyInt ((pySplitDot ip).getLastD "") = none →
        node_type ⟨none, none, some ip⟩ = "unknown")
    ∧ node_type ⟨none, none, none⟩ = "unknown"
    ∧ (node_type src = "dnode" ∨ node_type src = "cnode" ∨ node_type src = "unknown") := by
  obtain ⟨pnt, hn, ip⟩ := src
  refine ⟨?_, ?_, ?_, ?_, ?_, ?_, rfl, ?_⟩
  · rintro nt hnt hv
    subst hnt
    have hne : nt ≠ "" := by
      intro h0
      rcases hv with hv | hv <;> rw [h0] at hv <;> exact absurd hv (by decide)
    simp only [node_type]
    rw [if_pos hne]
    rcases hv with hv | hv <;> rw [hv] <;> rfl
  · rintro nt hnt hv
    subst hnt
    have hne : nt ≠ "" := by
      intro h0
      rcases hv with hv | hv | hv <;> rw [h0] at hv <;> exact absurd hv (by decide)
    simp only [node_type]
    rw [if_pos hne]
    rcases hv with hv | hv | hv <;> rw [hv] <;> rfl
  · intro nt hn0 ip0 h1 h2 h3 h4 h5
    by_cases hne : nt = ""
    · subst hne
      simp [node_type]
    · simp only [node_type, h1, h2, h3, h4, h5]
      simp [hne]
  · intro hn0 ip0 h1 h2
    by_cases hne : hn0 = ""
    · subst hne
      simp [node_type]
    · simp only [node_type, h1, h2]
      simp [hne]
  · intro ip0 k hne hk
    simp only [node_type, hk]
    simp [hne]
  · intro ip0 hne hk
    simp only [node_type, hk]
    simp [hne]
  · simp only [node_type]
    rcases pnt with _ | nt <;> rcases hn with _ | h0 <;> rcases ip with _ | i0 <;>
      dsimp only <;>
        repeat' first
          | (split <;> try tauto)
          | tauto

/-- C6 witness: the vocabulary tier on `platform.config` value `Data`
resolves `dnode`; the heuristic tier on data IP `172.16.3.117` (last octet
`117 ≥ 100`) resolves `dnode` as well. -/
theorem c6_node_type_chain_witness :
    node_type ⟨some "Data", none, none⟩ = "dnode"
    ∧ node_type ⟨none, none, some "172.16.3.117"⟩ = "dnode" := by
  constructor
  · exact (c6_node_type_chain ⟨some "Data", none, none⟩).1 "Data" rfl (Or.inl (by decide))
  · have h := (c6_node_type_chain ⟨none, none, some "172.16.3.117"⟩).2.2.2.2.1
      "172.16.3.117" 117 (by decide) (by decide)
    simpa using h

/-- C2 counterexample: identifier `ABC` is exactly the serial number of
bundle 0's node, yet `find_node` returns bundle 1 alone — the fast
hostname stage matched `abc` as a case-insensitive substring of hostname
`xabc1` and returned before the exact-equality stage ran, so exact
matching is not attempted first and the single exact match is not the
result. -/
theorem c2_fast_hostname_preempts_exact :
    find_node "ABC" none (some (fun s => pyIn "abc" (strLower s)))
        [⟨0, some "sx", ⟨"nx", some "ABC", none, none, none⟩⟩,
          ⟨1, some "xabc1", ⟨"xabc1", none, none, none, none⟩⟩]
      = [⟨1, some "xabc1", ⟨"xabc1", none, none, none, none⟩⟩]
    ∧ exactMatchSearch "ABC"
        [⟨0, some "sx", ⟨"nx", some "ABC", none, none, none⟩⟩,
          ⟨1, some "xabc1", ⟨"xabc1", none, none, none, none⟩⟩]
      = [⟨0, some "sx", ⟨"nx", some "ABC", none, none, none⟩⟩]
    ∧ interpretMatches
        (find_node "ABC" none (some (fun s => pyIn "abc" (strLower s)))
          [⟨0, some "sx", ⟨"nx", some "ABC", none, none, none⟩⟩,
            ⟨1, some "xabc1", ⟨"xabc1", none, none, none, none⟩⟩])
        ≠ MatchOutcome.single ⟨0, some "sx", ⟨"nx", some "ABC", none, none, none⟩⟩ :=
  ⟨by decide, by decide, by decide⟩

/-- C2 amended: the staging holds only below the fast hostname stage —
whenever the fast hostname search (exact, regex, or case-insensitive
substring on hostnames) finds no candidate, the exact-equality match over
{name, serial_number, mgmt_ip, data_ip, box_serial} is attempted, one
exact match yields Single, several yield Ambiguous containing exactly the
exact matches, and regex matching runs only when the exact stage produced
zero matches. -/
theorem c2_staged_after_fast_hostname (identifier : String)
    (pattern fallback : Option (String → Bool)) (bundles : List BundleR)
    (hfast : fastHostnameSearch identifier pattern bundles = []) :
    (exactMatchSearch identifier bundles ≠ [] →
      find_node identifier pattern fallback bundles = exactMatchSearch identifier bundles)
    ∧ (∀ x, exactMatchSearch identifier bundles = [x] →
        interpretMatches (find_node identifier pattern fallback bundles)
          = MatchOutcome.single x)
    ∧ (∀ x y l, exactMatchSearch identifier bundles = x :: y :: l →
        interpretMatches (find_node identifier pattern fallback bundles)
          = MatchOutcome.ambiguous (exactMatchSearch identifier bundles))
    ∧ (exactMatchSearch identifier bundles = [] →
        find_node identifier pattern fallback bundles =
          (match pattern with
            | some p => regexMatchSearch p bundles
            | none =>
                match fallback with
                | some p => regexMatchSearch p bundles
                | none => [])) := by
  refine ⟨?_, ?_, ?_, ?_⟩
  · intro hne
    unfold find_node
    rw [hfast]
    simp [hne]
  · intro x hx
    unfold find_node
    rw [hfast, hx]
    simp [interpretMatches]
  · intro x y l hxy
    unfold find_node
    rw [hfast, hxy]
    simp [interpretMatches]
  · intro hz
    unfold find_node
    rw [hfast, hz]
    cases pattern <;> cases fallback <;> simp

/-- C2 witness: with no fast-hostname candidate, an identifier equal to
exactly one node's serial number resolves to a Single match. -/
theorem c2_staged_after_fast_hostname_witness :
    interpretMatches
        (find_node "ZID" none none [⟨0, none, ⟨"nz", some "ZID", none, none, none⟩⟩])
      = MatchOutcome.single ⟨0, none, ⟨"nz", some "ZID", none, none, none⟩⟩ :=
  (c2_staged_after_fast_hostname "ZID" none none
      [⟨0, none, ⟨"nz", some "ZID", none, none, none⟩⟩] (by decide)).2.1
    ⟨0, none, ⟨"nz", some "ZID", none, none, none⟩⟩ (by decide)

/-- Unfolding equation for `pyMaxAux` on a cons cell. -/
theorem pyMaxAux_cons (f : α → Nat) (best x : α) (l : List α) :
    pyMaxAux f best (x :: l) = pyMaxAux f (if f best < f x then x else best) l := rfl

/-- `pyMaxAux` keeps the incumbent when nothing beats it strictly. -/
theorem pyMaxAux_keep (f : α → Nat) :
    ∀ (l : List α) (best : α), (∀ x ∈ l, f x ≤ f best) → pyMaxAux f best l = best
  | [], _, _ => rfl
  | x :: l, best, h => by
      rw [pyMaxAux_cons, if_neg (not_lt.mpr (h x (List.mem_cons_self x l)))]
      exact pyMaxAux_keep f l best (fun y hy => h y (List.mem_cons_of_mem _ hy))

/-- `pyMaxAux` returns the incumbent or a list element. -/
theorem pyMaxAux_mem (f : α → Nat) :
    ∀ (l : List α) (best : α), pyMaxAux f best l = best ∨ pyMaxAux f best l ∈ l
  | [], _ => Or.inl rfl
  | x :: l, best => by
      rw [pyMaxAux_cons]
      rcases pyMaxAux_mem f l (if f best < f x then x else best) with h | h
      · rw [h]
        split
        · exact Or.inr (List.mem_cons_self _ _)
        · exact Or.inl rfl
      · exact Or.inr (List.mem_cons_of_mem _ h)

/-- `pyMaxAux` dominates the incumbent and every element. -/
theorem pyMaxAux_ge (f : α → Nat) :
    ∀ (l : List α) (best : α),
      f best ≤ f (pyMaxAux f best l) ∧ ∀ x ∈ l, f x ≤ f (pyMaxAux f best l)
  | [], best => ⟨le_refl _, by simp⟩
  | x :: l, best => by
      rw [pyMaxAux_cons]
      obtain ⟨h1, h2⟩ := pyMaxAux_ge f l (if f best < f x then x else best)
      have hb : f best ≤ f (if f best < f x then x else best) := by
        split <;> omega
      have hx : f x ≤ f (if f best < f x then x else best) := by
        split <;> omega
      refine ⟨le_trans hb h1, ?_⟩
      intro y hy
      rcases List.mem_cons.mp hy with rfl | hyl
      · exact le_trans hx h1
      · exact h2 y hyl

/-- A strictly dominant element is what `pyMaxAux` returns. -/
theorem pyMaxAux_strict (f : α → Nat) :
    ∀ (l : List α) (b : α), b ∈ l → (∀ x ∈ l, x ≠ b → f x < f b) →
      ∀ best, f best < f b → pyMaxAux f best l = b
  | [], _, hmem, _, _, _ => absurd hmem (List.not_mem_nil _)
  | x :: l, b, hmem, hlt, best, hbest => by
      rw [pyMaxAux_cons]
      by_cases hxb : x = b
      · subst hxb
        rw [if_pos hbest]
        apply pyMaxAux_keep
        intro y hy
        by_cases hyb : y = x
        · rw [hyb]
        · exact le_of_lt (hlt y (List.mem_cons_of_mem _ hy) hyb)
      · have hbl : b ∈ l := by
          rcases List.mem_cons.mp hmem with h | h
          · exact absurd h.symm hxb
          · exact h
        have hlt' : ∀ y ∈ l, y ≠ b → f y < f b :=
          fun y hy hyb => hlt y (List.mem_cons_of_mem _ hy) hyb
        have hxlt : f x < f b := hlt x (List.mem_cons_self _ _) hxb
        split
        · exact pyMaxAux_strict f l b hbl hlt' x hxlt
        · exact pyMaxAux_strict f l b hbl hlt' best hbest

/-- `pyMax` returns a list element. -/
theorem pyMax_mem (f : α → Nat) (l : List α) (b : α) (h : pyMax f l = some b) :
    b ∈ l := by
  cases l with
  | nil => cases h
  | cons x l =>
      have hb : pyMaxAux f x l = b := Option.some.inj h
      rcases pyMaxAux_mem f l x with h1 | h1
      · rw [← hb, h1]
        exact List.mem_cons_self _ _
      · rw [← hb]
        exact List.mem_cons_of_mem _ h1

/-- `pyMax` dominates every list element. -/
theorem pyMax_ge (f : α → Nat) (l : List α) (b : α) (h : pyMax f l = some b) :
    ∀ x ∈ l, f x ≤ f b := by
  cases l with
  | nil => cases h
  | cons x l =>
      have hb : pyMaxAux f x l = b := Option.some.inj h
      obtain ⟨h1, h2⟩ := pyMaxAux_ge f l x
      intro y hy
      rcases List.mem_cons.mp hy with rfl | hyl
      · rw [← hb]; exact h1
      · rw [← hb]; exact h2 y hyl

/-- A strictly dominant element is what `pyMax` returns. -/
theorem pyMax_strict (f : α → Nat) (l : List α) (b : α) (hmem : b ∈ l)
    (hstr : ∀ x ∈ l, x ≠ b → f x < f b) : pyMax f l = some b := by
  cases l with
  | nil => cases hmem
  | cons x l =>
      show some (pyMaxAux f x l) = some b
      congr 1
      by_cases hxb : x = b
      · subst hxb
        apply pyMaxAux_keep
        intro y hy
        by_cases hyb : y = x
        · rw [hyb]
        · exact le_of_lt (hstr y (List.mem_cons_of_mem _ hy) hyb)
      · have hbl : b ∈ l := by
          rcases List.mem_cons.mp hmem with h | h
          · exact absurd h.symm hxb
          · exact h
        exact pyMaxAux_strict f l b hbl
          (fun y hy hyb => hstr y (List.mem_cons_of_mem _ hy) hyb)
          x (hstr x (List.mem_cons_self _ _) hxb)

/-- Membership in a hostname group. -/
theorem hostGroup_mem (h : String) (bundles : List BundleB) (b : BundleB) :
    b ∈ hostGroup h bundles ↔ b ∈ bundles ∧ resolvedHostname b = some h := by
  simp [hostGroup, List.mem_filter]

/-- Membership after `insertKey`. -/
theorem mem_insertKey (ks : List String) (k k' : String) :
    k' ∈ insertKey ks k ↔ k' ∈ ks ∨ k' = k := by
  by_cases hk : k ∈ ks
  · rw [insertKey, if_pos hk]
    constructor
    · exact Or.inl
    · rintro (h | rfl)
      · exact h
      · exact hk
  · rw [insertKey, if_neg hk]
    simp

/-- `insertKey` preserves distinctness. -/
theorem insertKey_nodup (ks : List String) (k : String) (h : ks.Nodup) :
    (insertKey ks k).Nodup := by
  by_cases hk : k ∈ ks
  · rwa [insertKey, if_pos hk]
  · rw [insertKey, if_neg hk]
    simp [List.nodup_append, h, hk]

/-- Membership in the accumulated key list of the grouping fold. -/
theorem collectKeys_go_mem (f : α → Option String) (xs : List α) :
    ∀ (ks : List String) (h : String),
      (h ∈ xs.foldl
          (fun ks x => match f x with | some k => insertKey ks k | none => ks)
          ks) ↔
        h ∈ ks ∨ ∃ x ∈ xs, f x = some h := by
  induction xs with
  | nil => simp
  | cons x xs ih =>
      intro ks h
      rw [List.foldl_cons]
      cases hb : f x with
      | none =>
          rw [ih]
          simp [hb]
      | some hh =>
          rw [ih, mem_insertKey]
          simp only [List.mem_cons]
          constructor
          · rintro ((hks | rfl) | hrest)
            · exact Or.inl hks
            · exact Or.inr ⟨x, Or.inl rfl, hb⟩
            · obtain ⟨x', hx', hres⟩ := hrest
              exact Or.inr ⟨x', Or.inr hx', hres⟩
          · rintro (hks | ⟨x', (rfl | hx'), hres⟩)
            · exact Or.inl (Or.inl hks)
            · rw [hb] at hres
              exact Or.inl (Or.inr (Option.some.inj hres).symm)
            · exact Or.inr ⟨x', hx', hres⟩

/-- The grouping fold preserves key distinctness. -/
theorem collectKeys_go_nodup (f : α → Option String) (xs : List α) :
    ∀ ks : List String, ks.Nodup →
      (xs.foldl
          (fun ks x => match f x with | some k => insertKey ks k | none => ks)
          ks).Nodup := by
  induction xs with
  | nil => exact fun ks h => h
  | cons x xs ih =>
      intro ks hks
      rw [List.foldl_cons]
      cases hb : f x with
      | none => exact ih ks hks
      | some hh => exact ih _ (insertKey_nodup ks hh hks)

/-- `collectKeys` holds exactly the keys produced by some element. -/
theorem collectKeys_mem (f : α → Option String) (xs : List α) (h : String) :
    h ∈ collectKeys f xs ↔ ∃ x ∈ xs, f x = some h := by
  rw [collectKeys, collectKeys_go_mem]
  simp

/-- `collectKeys` has no duplicates. -/
theorem collectKeys_nodup (f : α → Option String) (xs : List α) :
    (collectKeys f xs).Nodup :=
  collectKeys_go_nodup f xs [] List.nodup_nil

/-- `hostKeys` holds exactly the resolvable hostnames. -/
theorem hostKeys_mem (bundles : List BundleB) (h : String) :
    h ∈ hostKeys bundles ↔ ∃ b ∈ bundles, resolvedHostname b = some h :=
  collectKeys_mem resolvedHostname bundles h

/-- `hostKeys` has no duplicates. -/
theorem hostKeys_nodup (bundles : List BundleB) : (hostKeys bundles).Nodup :=
  collectKeys_nodup resolvedHostname bundles

/-- The output bundles carrying hostname `h` are exactly the chosen
maximum of `h`'s group (and none when `h` resolves for no bundle). -/
theorem filterLatest_filter (bundles : List BundleB) (h : String) :
    (filterLatestBundlesPerNode bundles).filter
        (fun b => resolvedHostname b == some h) =
      (if h ∈ hostKeys bundles then
        (match pyMax tsOf (hostGroup h bundles) with
          | some b => [b]
          | none => ([] : List BundleB))
        else []) := by
  have hpick : ∀ k b, pyMax tsOf (hostGroup k bundles) = some b →
      resolvedHostname b = some k :=
    fun k b hb => ((hostGroup_mem k bundles b).mp (pyMax_mem _ _ _ hb)).2
  have key : ∀ ks : List String, ks.Nodup →
      (ks.filterMap (fun k => pyMax tsOf (hostGroup k bundles))).filter
          (fun b => resolvedHostname b == some h) =
        (if h ∈ ks then
          (match pyMax tsOf (hostGroup h bundles) with
            | some b => [b]
            | none => ([] : List BundleB))
          else []) := by
    intro ks
    induction ks with
    | nil => simp
    | cons k ks ih =>
        intro hnd
        obtain ⟨hk, hnd'⟩ := List.nodup_cons.mp hnd
        rw [List.filterMap_cons]
        cases hp : pyMax tsOf (hostGroup k bundles) with
        | none =>
            rw [ih hnd']
            by_cases hh : h = k
            · subst hh
              simp [hk, hp]
            · simp [List.mem_cons, hh]
        | some b =>
            have hbh : resolvedHostname b = some k := hpick k b hp
            by_cases hh : h = k
            · subst hh
              rw [List.filter_cons_of_pos (by simp [hbh]), ih hnd', if_neg hk,
                if_pos (List.mem_cons_self _ _), hp]
            · rw [List.filter_cons_of_neg (by simp [hbh, Ne.symm hh]), ih hnd']
              simp [List.mem_cons, hh]
  rw [filterLatestBundlesPerNode]
  exact key (hostKeys bundles) (hostKeys_nodup bundles)

/-- C3: deduplication keeps, for every hostname that resolves for at least
one bundle, exactly one bundle — a group maximum under the creation
timestamp, and in particular the strictly latest bundle when timestamps
are distinct — and drops every bundle whose hostname cannot be resolved. -/
theorem c3_dedup_latest_per_hostname (bundles : List BundleB) :
    (∀ b ∈ filterLatestBundlesPerNode bundles, (resolvedHostname b).isSome)
    ∧ (∀ h, ((filterLatestBundlesPerNode bundles).filter
        (fun b => resolvedHostname b == some h)).length ≤ 1)
    ∧ (∀ h b0, b0 ∈ bundles → resolvedHostname b0 = some h →
        ∃ b ∈ filterLatestBundlesPerNode bundles,
          b ∈ bundles ∧ resolvedHostname b = some h ∧
            ∀ b' ∈ bundles, resolvedHostname b' = some h → tsOf b' ≤ tsOf b)
    ∧ (∀ h b, b ∈ bundles → resolvedHostname b = some h →
        (∀ b' ∈ bundles, resolvedHostname b' = some h → b' ≠ b → tsOf b' < tsOf b) →
          b ∈ filterLatestBundlesPerNode bundles) := by
  refine ⟨?_, ?_, ?_, ?_⟩
  · intro b hb
    rw [filterLatestBundlesPerNode, List.mem_filterMap] at hb
    obtain ⟨k, -, hpk⟩ := hb
    rw [((hostGroup_mem k bundles b).mp (pyMax_mem _ _ _ hpk)).2]
    rfl
  · intro h
    rw [filterLatest_filter]
    split
    · split <;> simp
    · simp
  · intro h b0 hb0 hres
    have hkey : h ∈ hostKeys bundles := (hostKeys_mem bundles h).mpr ⟨b0, hb0, hres⟩
    have hgmem : b0 ∈ hostGroup h bundles := (hostGroup_mem h bundles b0).mpr ⟨hb0, hres⟩
    cases hg : hostGroup h bundles with
    | nil => rw [hg] at hgmem; cases hgmem
    | cons x xs =>
        have hp : pyMax tsOf (hostGroup h bundles) = some (pyMaxAux tsOf x xs) := by
          rw [hg]; rfl
        have hbmem := (hostGroup_mem h bundles _).mp (pyMax_mem _ _ _ hp)
        refine ⟨pyMaxAux tsOf x xs, ?_, hbmem.1, hbmem.2, ?_⟩
        · rw [filterLatestBundlesPerNode, List.mem_filterMap]
          exact ⟨h, hkey, hp⟩
        · intro b' hb' hres'
          exact pyMax_ge tsOf _ _ hp b' ((hostGroup_mem h bundles b').mpr ⟨hb', hres'⟩)
  · intro h b hb hres hstr
    have hkey : h ∈ hostKeys bundles := (hostKeys_mem bundles h).mpr ⟨b, hb, hres⟩
    have hp : pyMax tsOf (hostGroup h bundles) = some b := by
      apply pyMax_strict
      · exact (hostGroup_mem h bundles b).mpr ⟨hb, hres⟩
      · intro x hx hxb
        have hx' := (hostGroup_mem h bundles x).mp hx
        exact hstr x hx'.1 hx'.2 hxb
    rw [filterLatestBundlesPerNode, List.mem_filterMap]
    exact ⟨h, hkey, hp⟩

/-- C3 witness: of two bundles with the same hostname and timestamps
`1 < 2`, dedup keeps the later one. -/
theorem c3_dedup_latest_per_hostname_witness :
    (⟨2, some "vh1", none, some 2⟩ : BundleB) ∈
      filterLatestBundlesPerNode
        [⟨1, some "vh1", none, some 1⟩, ⟨2, some "vh1", none, some 2⟩] :=
  (c3_dedup_latest_per_hostname
      [⟨1, some "vh1", none, some 1⟩, ⟨2, some "vh1", none, some 2⟩]).2.2.2
    "vh1" ⟨2, some "vh1", none, some 2⟩ (by decide) (by decide) (by decide)

/-- C9: drive classification — an indicator substring (case-insensitive)
in the model, in particular an `Optane`-family marker, or in the device
path yields `nvram`; with no indicator in either field, or with the model
key absent (resolved to `Unknown`) and an indicator-free path, the device
classifies as `ssd`. -/
theorem c9_drive_type_classification (model path : String) :
    (pyIn "optane" (strLower model) = true → drive_type model path = "nvram")
    ∧ (∀ ind ∈ NVRAM_INDICATORS,
        pyIn ind (strLower model) = true ∨ pyIn ind (strLower path) = true →
          drive_type model path = "nvram")
    ∧ ((∀ ind ∈ NVRAM_INDICATORS,
          pyIn ind (strLower model) = false ∧ pyIn ind (strLower path) = false) →
        drive_type model path = "ssd")
    ∧ (∀ po : Option String,
        (∀ ind ∈ NVRAM_INDICATORS,
            pyIn ind (strLower (devicePath (some ⟨none, po⟩))) = false) →
          deviceDriveType (some ⟨none, po⟩) = "ssd") := by
  have pos : ∀ m p : String,
      (∃ ind ∈ NVRAM_INDICATORS,
          pyIn ind (strLower m) = true ∨ pyIn ind (strLower p) = true) →
        drive_type m p = "nvram" := by
    rintro m p ⟨ind, hind, hor⟩
    have hany : (NVRAM_INDICATORS.any
        fun i => pyIn i (strLower m) || pyIn i (strLower p)) = true :=
      List.any_eq_true.mpr ⟨ind, hind, by rcases hor with h | h <;> simp [h]⟩
    simp [drive_type, hany]
  have neg : ∀ m p : String,
      (∀ ind ∈ NVRAM_INDICATORS,
          pyIn ind (strLower m) = false ∧ pyIn ind (strLower p) = false) →
        drive_type m p = "ssd" := by
    intro m p hnone
    have hany : (NVRAM_INDICATORS.any
        fun i => pyIn i (strLower m) || pyIn i (strLower p)) = false := by
      rw [List.any_eq_false]
      intro ind hind
      simp [(hnone ind hind).1, (hnone ind hind).2]
    simp [drive_type, hany]
  refine ⟨?_, ?_, neg model path, ?_⟩
  · intro h
    exact pos model path ⟨"optane", by decide, Or.inl h⟩
  · intro ind hind hor
    exact pos model path ⟨ind, hind, hor⟩
  · intro po hpath
    unfold deviceDriveType
    apply neg
    intro ind hind
    refine ⟨?_, hpath ind hind⟩
    have hm : deviceModel (some ⟨none, po⟩) = "Unknown" := rfl
    rw [hm]
    fin_cases hind <;> decide

/-- C9 witness: an Optane-marked model classifies `nvram`; an unrelated
model and path classify `ssd`. -/
theorem c9_drive_type_classification_witness :
    drive_type "INTEL SSDPE21K375GA (Optane)" "/dev/nvme1n1" = "nvram"
    ∧ drive_type "SAMSUNG MZWLJ3T8HBLS-00007" "/dev/nvme0n1" = "ssd" :=
  ⟨(c9_drive_type_classification "INTEL SSDPE21K375GA (Optane)" "/dev/nvme1n1").1
      (by decide),
    (c9_drive_type_classification "SAMSUNG MZWLJ3T8HBLS-00007" "/dev/nvme0n1").2.2.1
      (by decide)⟩

/-- C10: device identity is the serial string — `__eq__` holds iff the
serials are equal (any other attribute, including the owning bundle, is
ignored), equal devices have equal hashes for every string hash, and
Python list membership over devices is membership by serial. -/
theorem c10_device_identity_by_serial (a b : DeviceE) (l : List DeviceE)
    (h : String → Nat) :
    (deviceEq a b = true ↔ a.serial = b.serial)
    ∧ (deviceEq a b = true → deviceHash h a = deviceHash h b)
    ∧ (pyListContains l a = true ↔ ∃ y ∈ l, y.serial = a.serial) := by
  refine ⟨?_, ?_, ?_⟩
  · simp [deviceEq]
  · intro hEq
    unfold deviceHash
    rw [show a.serial = b.serial by simpa [deviceEq] using hEq]
  · simp [pyListContains, List.any_eq_true, deviceEq]

/-- C10 witness: two records with the same serial from different bundles
and models are equal and hash alike. -/
theorem c10_device_identity_by_serial_witness :
    deviceHash String.length ⟨"PHKE001", 0, "A"⟩ = deviceHash String.length ⟨"PHKE001", 1, "B"⟩ :=
  (c10_device_identity_by_serial ⟨"PHKE001", 0, "A"⟩ ⟨"PHKE001", 1, "B"⟩ []
    String.length).2.1 (by decide)

/-- `insertLe` permutes the cons. -/
theorem insertLe_perm (le : α → α → Bool) (x : α) :
    ∀ l : List α, (insertLe le x l).Perm (x :: l)
  | [] => List.Perm.refl _
  | y :: ys => by
      rw [insertLe]
      split
      · exact ((insertLe_perm le x ys).cons y).trans (List.Perm.swap x y ys)
      · exact List.Perm.refl _

/-- The sorting fold permutes the input appended to the accumulator. -/
theorem sortLe_go_perm (le : α → α → Bool) :
    ∀ (l acc : List α),
      (l.foldl (fun acc x => insertLe le x acc) acc).Perm (l ++ acc)
  | [], acc => List.Perm.refl _
  | x :: l, acc => by
      rw [List.foldl_cons]
      refine (sortLe_go_perm le l (insertLe le x acc)).trans ?_
      have h1 : (l ++ insertLe le x acc).Perm (l ++ (x :: acc)) :=
        (insertLe_perm le x acc).append_left l
      have h2 : (l ++ (x :: acc)).Perm (x :: (l ++ acc)) := List.perm_middle
      exact h1.trans h2

/-- `sortLe` permutes its input. -/
theorem sortLe_perm (le : α → α → Bool) (l : List α) : (sortLe le l).Perm l := by
  have h := sortLe_go_perm le l []
  simpa [sortLe] using h

/-- `insertLe` preserves pairwise sortedness for a total transitive `le`. -/
theorem insertLe_pairwise (le : α → α → Bool)
    (htot : ∀ a b, le a b = false → le b a = true)
    (htrans : ∀ a b c, le a b = true → le b c = true → le a c = true) (x : α) :
    ∀ l : List α, l.Pairwise (fun a b => le a b = true) →
      (insertLe le x l).Pairwise (fun a b => le a b = true)
  | [], _ => by simp [insertLe]
  | y :: ys, hp => by
      obtain ⟨hy, hys⟩ := List.pairwise_cons.mp hp
      rw [insertLe]
      split
      · rename_i hle
        refine List.pairwise_cons.mpr
          ⟨?_, insertLe_pairwise le htot htrans x ys hys⟩
        intro z hz
        rcases List.mem_cons.mp ((insertLe_perm le x ys).mem_iff.mp hz) with rfl | hzys
        · exact hle
        · exact hy z hzys
      · rename_i hnle
        have hxy : le x y = true := htot y x (Bool.not_eq_true _ ▸ hnle)
        refine List.pairwise_cons.mpr ⟨?_, hp⟩
        intro z hz
        rcases List.mem_cons.mp hz with rfl | hzys
        · exact hxy
        · exact htrans x y z hxy (hy z hzys)

/-- The sorting fold preserves pairwise sortedness of the accumulator. -/
theorem sortLe_go_pairwise (le : α → α → Bool)
    (htot : ∀ a b, le a b = false → le b a = true)
    (htrans : ∀ a b c, le a b = true → le b c = true → le a c = true) :
    ∀ (l acc : List α), acc.Pairwise (fun a b => le a b = true) →
      (l.foldl (fun acc x => insertLe le x acc) acc).Pairwise
        (fun a b => le a b = true)
  | [], _, h => h
  | x :: l, acc, h =>
      sortLe_go_pairwise le htot htrans l (insertLe le x acc)
        (insertLe_pairwise le htot htrans x acc h)

/-- `sortLe` sorts, for a total transitive `le`. -/
theorem sortLe_pairwise (le : α → α → Bool)
    (htot : ∀ a b, le a b = false → le b a = true)
    (htrans : ∀ a b c, le a b = true → le b c = true → le a c = true)
    (l : List α) :
    (sortLe le l).Pairwise (fun a b => le a b = true) :=
  sortLe_go_pairwise le htot htrans l [] (by simp)

/-- The sibling comparison is total. -/
theorem sibLe_tot : ∀ a b : NodeS, sibLe a b = false → sibLe b a = true := by
  intro a b h
  simp only [sibLe, decide_eq_false_iff_not, not_le] at h
  simp only [sibLe, decide_eq_true_eq]
  omega

/-- The sibling comparison is transitive. -/
theorem sibLe_trans : ∀ a b c : NodeS,
    sibLe a b = true → sibLe b c = true → sibLe a c = true := by
  intro a b c h1 h2
  simp only [sibLe, decide_eq_true_eq] at h1 h2 ⊢
  omega

/-- C7 counterexample: two distinct sibling node objects that agree on
both `name` and `data_ip` (the same physical node reported twice) both
appear in the sibling list — no `(name, data_ip)` deduplication exists. -/
theorem c7_siblings_not_deduplicated :
    computeSiblings
        [⟨0, "na", some "bottom", some "172.16.2.10", none, some "BX"⟩,
          ⟨1, "nb", some "top", some "172.16.2.5", none, some "BX"⟩,
          ⟨2, "nb", some "top", some "172.16.2.5", none, some "BX"⟩]
        ⟨0, "na", some "bottom", some "172.16.2.10", none, some "BX"⟩
      = [⟨1, "nb", some "top", some "172.16.2.5", none, some "BX"⟩,
          ⟨2, "nb", some "top", some "172.16.2.5", none, some "BX"⟩]
    ∧ (⟨1, "nb", some "top", some "172.16.2.5", none, some "BX"⟩ : NodeS).name
        = (⟨2, "nb", some "top", some "172.16.2.5", none, some "BX"⟩ : NodeS).name
    ∧ (⟨1, "nb", some "top", some "172.16.2.5", none, some "BX"⟩ : NodeS).data_ip
        = (⟨2, "nb", some "top", some "172.16.2.5", none, some "BX"⟩ : NodeS).data_ip :=
  ⟨by decide, by decide, by decide⟩

/-- C7 amended: the sibling list of a Single match is exactly the other
node objects (by Python identity) whose `box_serial` equals the matched
node's, with multiplicity (no `(name, data_ip)` deduplication), in
ascending order of the data-IP last octet. -/
theorem c7_siblings_box_nodes_sorted (nodes : List NodeS) (matched : NodeS) :
    (computeSiblings nodes matched).Perm
        ((nodes_by_box nodes matched.box_serial).filter
          (fun n => !(n.id == matched.id)))
    ∧ (computeSiblings nodes matched).Pairwise
        (fun a b => getIpLastOctet a.data_ip ≤ getIpLastOctet b.data_ip)
    ∧ (∀ n, n ∈ computeSiblings nodes matched ↔
        n ∈ nodes ∧ n.box_serial = matched.box_serial ∧ n.id ≠ matched.id) := by
  refine ⟨sortLe_perm _ _, ?_, ?_⟩
  · have hp := sortLe_pairwise sibLe sibLe_tot sibLe_trans
      ((nodes_by_box nodes matched.box_serial).filter (fun n => !(n.id == matched.id)))
    exact hp.imp (fun h => by simpa [sibLe] using h)
  · intro n
    rw [computeSiblings, (sortLe_perm _ _).mem_iff]
    simp only [nodes_by_box, List.mem_filter, Bool.not_eq_true', beq_iff_eq,
      beq_eq_false_iff_ne, ne_eq]
    tauto

/-- Membership in a `list_nodes` box group. -/
theorem boxGroup_mem (s : String) (nodes : List NodeS) (n : NodeS) :
    n ∈ boxGroup s nodes ↔ n ∈ nodes ∧ knownBoxSerial n = some s := by
  simp [boxGroup, List.mem_filter]

/-- Decomposition of the rendered `list_nodes` groups. -/
theorem listNodesGroups_mem (nodes : List NodeS) (g : String × List NodeS) :
    g ∈ listNodesGroups nodes ↔
      ((∃ s ∈ boxKeys nodes, g = (s, sortLe rowLe (boxGroup s nodes)))
        ∨ (∃ n ∈ nodes, knownBoxSerial n = none ∧ g = ("Unknown", sortLe rowLe [n]))) := by
  rw [listNodesGroups, List.mem_map]
  constructor
  · rintro ⟨p, hp, rfl⟩
    rcases List.mem_append.mp hp with hp1 | hp2
    · have hp1' := (sortLe_perm boxLe (boxPairs nodes)).mem_iff.mp hp1
      obtain ⟨s, hs, rfl⟩ := List.mem_map.mp hp1'
      exact Or.inl ⟨s, hs, rfl⟩
    · obtain ⟨n, hn, rfl⟩ := List.mem_map.mp hp2
      obtain ⟨hn1, hn2⟩ := List.mem_filter.mp hn
      exact Or.inr ⟨n, hn1, by simpa using hn2, rfl⟩
  · rintro (⟨s, hs, rfl⟩ | ⟨n, hn, hk, rfl⟩)
    · refine ⟨(s, boxGroup s nodes), ?_, rfl⟩
      exact List.mem_append.mpr (Or.inl
        ((sortLe_perm boxLe (boxPairs nodes)).mem_iff.mpr
          (List.mem_map.mpr ⟨s, hs, rfl⟩)))
    · refine ⟨("Unknown", [n]), ?_, rfl⟩
      exact List.mem_append.mpr (Or.inr
        (List.mem_map.mpr ⟨n, List.mem_filter.mpr ⟨hn, by simpa using hk⟩, rfl⟩))

/-- C8 counterexample: two distinct nodes, both with unresolved
(`None`) box serial, are co-located by `nodes_by_box` and by the sibling
computation built on it — the claim that such nodes are never grouped with
any other node in every box-grouping operation fails. -/
theorem c8_unresolved_serial_nodes_colocated :
    nodes_by_box
        [⟨0, "n0", none, none, none, none⟩, ⟨1, "n1", none, none, none, none⟩] none
      = [⟨0, "n0", none, none, none, none⟩, ⟨1, "n1", none, none, none, none⟩]
    ∧ computeSiblings
        [⟨0, "n0", none, none, none, none⟩, ⟨1, "n1", none, none, none, none⟩]
        ⟨0, "n0", none, none, none, none⟩
      = [⟨1, "n1", none, none, none, none⟩] :=
  ⟨by decide, by decide⟩

/-- C8 amended: in the `list_nodes` rendering the grouping is as claimed —
members of one group always share the same `knownBoxSerial`, a group
containing a node with missing/`Unknown` serial is that node's singleton,
and any two nodes sharing a known serial land in one common group (so on
known serials grouping is the equivalence induced by serial equality); but
`nodes_by_box` (used for sibling computation) matches the optional serial
by plain equality, so two nodes whose `box_serial` is unresolved are
co-located there. -/
theorem c8_list_nodes_grouping (nodes : List NodeS) :
    (∀ g ∈ listNodesGroups nodes, ∀ n ∈ g.2, n ∈ nodes)
    ∧ (∀ g ∈ listNodesGroups nodes, ∀ n ∈ g.2,
        knownBoxSerial n = none → g.2 = [n])
    ∧ (∀ g ∈ listNodesGroups nodes, ∀ n ∈ g.2, ∀ m ∈ g.2,
        knownBoxSerial n = knownBoxSerial m)
    ∧ (∀ s n m, n ∈ nodes → m ∈ nodes → knownBoxSerial n = some s →
        knownBoxSerial m = some s →
          ∃ g ∈ listNodesGroups nodes, n ∈ g.2 ∧ m ∈ g.2)
    ∧ (∀ a b : NodeS, a.box_serial = none → b.box_serial = none →
        b ∈ nodes → b ∈ nodes_by_box nodes a.box_serial) := by
  refine ⟨?_, ?_, ?_, ?_, ?_⟩
  · intro g hg n hn
    rcases (listNodesGroups_mem nodes g).mp hg with ⟨s, -, rfl⟩ | ⟨m, hm, -, rfl⟩
    · exact ((boxGroup_mem s nodes n).mp
        ((sortLe_perm rowLe _).mem_iff.mp hn)).1
    · have := (sortLe_perm rowLe [m]).mem_iff.mp hn
      simp only [List.mem_singleton] at this
      rwa [this]
  · intro g hg n hn hnone
    rcases (listNodesGroups_mem nodes g).mp hg with ⟨s, -, rfl⟩ | ⟨m, -, -, rfl⟩
    · have := ((boxGroup_mem s nodes n).mp
        ((sortLe_perm rowLe _).mem_iff.mp hn)).2
      rw [hnone] at this
      cases this
    · have hm := (sortLe_perm rowLe [m]).mem_iff.mp hn
      simp only [List.mem_singleton] at hm
      subst hm
      show sortLe rowLe [n] = [n]
      rfl
  · intro g hg n hn m hm
    rcases (listNodesGroups_mem nodes g).mp hg with ⟨s, -, rfl⟩ | ⟨x, -, -, rfl⟩
    · rw [((boxGroup_mem s nodes n).mp ((sortLe_perm rowLe _).mem_iff.mp hn)).2,
        ((boxGroup_mem s nodes m).mp ((sortLe_perm rowLe _).mem_iff.mp hm)).2]
    · have hn' := (sortLe_perm rowLe [x]).mem_iff.mp hn
      have hm' := (sortLe_perm rowLe [x]).mem_iff.mp hm
      simp only [List.mem_singleton] at hn' hm'
      rw [hn', hm']
  · intro s n m hn hm hkn hkm
    refine ⟨(s, sortLe rowLe (boxGroup s nodes)), ?_, ?_, ?_⟩
    · exact (listNodesGroups_mem nodes _).mpr
        (Or.inl ⟨s, (collectKeys_mem knownBoxSerial nodes s).mpr ⟨n, hn, hkn⟩, rfl⟩)
    · exact (sortLe_perm rowLe _).mem_iff.mpr ((boxGroup_mem s nodes n).mpr ⟨hn, hkn⟩)
    · exact (sortLe_perm rowLe _).mem_iff.mpr ((boxGroup_mem s nodes m).mpr ⟨hm, hkm⟩)
  · intro a b ha hb hbmem
    rw [nodes_by_box, List.mem_filter]
    exact ⟨hbmem, by simp [ha, hb]⟩

/-- C8 witness: two nodes sharing box serial `BX` land in one common
rendered group. -/
theorem c8_list_nodes_grouping_witness :
    ∃ g ∈ listNodesGroups
        [⟨0, "n0", none, none, none, some "BX"⟩, ⟨1, "n1", none, none, none, some "BX"⟩],
      (⟨0, "n0", none, none, none, some "BX"⟩ : NodeS) ∈ g.2
        ∧ (⟨1, "n1", none, none, none, some "BX"⟩ : NodeS) ∈ g.2 :=
  (c8_list_nodes_grouping
      [⟨0, "n0", none, none, none, some "BX"⟩,
        ⟨1, "n1", none, none, none, some "BX"⟩]).2.2.2.1 "BX"
    ⟨0, "n0", none, none, none, some "BX"⟩ ⟨1, "n1", none, none, none, some "BX"⟩
    (by decide) (by decide) (by decide) (by decide)

end RmaPrep
